import Mathlib

/-!
Verification of the LLM-feedback social-media push system.

The data model follows types.ts.  The profile-mutation pipeline
(adjustment application, background decay, reranker result application)
is embedded from App.tsx, and the collaborator boundary functions from
services/geminiService.ts.

The final relevance-scoring / hybrid-retrieval engine is absent from the
source snapshot: App.tsx imports normalizeTag, generateRandomProfile and
getHybridFeed from services/recommendationEngine.ts, but the file present
at that path is a stale historical variant (it reads profile.likeTags and
profile.dislikeTags, fields that no longer exist in types.ts, and exports
none of those symbols).  Definitions for that engine are therefore
modelled from the spec (sections 4.1-4.3), as marked in their doc
comments.  The tag canonicalizer normalizeTag is likewise missing; all
theorems about the profile-state manager quantify over an arbitrary
normalization function so they hold for any implementation of it.

Numbers are modelled as rationals.  The base-10 logarithm used by the
popularity term is kept abstract as a function parameter `lg : ℕ → ℚ`
(applied to `likes + 1`); theorems that depend on its value carry the
corresponding exact hypothesis (for example `lg 10 = 1`), each of which is
a true fact of the real log10.
-/

/-- Bilingual text, from types.ts (LocalizedContent). -/
structure LocalizedContent where
  en : String
  zh : String
deriving DecidableEq

/-- A catalog post, from types.ts (Post).  The transient computed fields
score and debugReason are not stored here; ranking returns them alongside
the post.  Fields not read by any modelled operation (author, imageUrl,
content) are omitted. -/
structure Post where
  id : String
  title : LocalizedContent
  tags : List String
  tagWeights : List (String × ℚ)
  likes : ℕ
deriving DecidableEq

/-- A tag with a weight, from types.ts (WeightedTag). -/
structure WeightedTag where
  tag : String
  weight : ℚ
deriving DecidableEq

/-- The user profile, from types.ts (UserProfile). -/
structure UserProfile where
  id : String
  name : String
  bio : String
  interests : List WeightedTag
  dislikes : List WeightedTag
deriving DecidableEq

/-- The category of a tag adjustment, from types.ts (TagAdjustment.category). -/
inductive TagCategory where
  | interest
  | dislike
deriving DecidableEq

/-- A structured adjustment produced by the intent-analysis collaborator,
from types.ts (TagAdjustment). -/
structure TagAdjustment where
  tag : String
  category : TagCategory
  delta : ℚ
deriving DecidableEq

/-- Character-list version of String.startsWith, used by the substring test. -/
def startsWithChars : List Char → List Char → Bool
  | [], _ => true
  | _ :: _, [] => false
  | a :: as, b :: bs => a == b && startsWithChars as bs

/-- Substring occurrence test on character lists (needle, haystack). -/
def subAt : List Char → List Char → Bool
  | [], _ => true
  | _ :: _, [] => false
  | n, h :: t => startsWithChars n (h :: t) || subAt n t

/-- Substring occurrence test on strings: does the first occur inside the second. -/
def strSub (needle hay : String) : Bool :=
  subAt needle.toList hay.toList

/-- Modelled from the spec, section 4.1 (the TagCanonicalizer source,
services/recommendationEngine.ts in its final form, is missing from the
snapshot): two tags are the same topic iff their canonical keys are equal
or one key is a substring of the other; an empty canonical key matches
nothing.  The canonical-key function itself stays abstract (`canon`). -/
def tagMatches (canon : String → String) (a b : String) : Bool :=
  let ka := canon a
  let kb := canon b
  if ka == "" || kb == "" then false
  else ka == kb || strSub ka kb || strSub kb ka

/-- Modelled from the spec, section 3: the per-post relevance weight of a
tag, defaulting to 1 when the post declares none. -/
def tagRelevance (post : Post) (t : String) : ℚ :=
  ((post.tagWeights.find? (fun w => w.1 == t)).map (fun w => w.2)).getD 1

/-- Modelled from the spec, section 4.2 step 1 (the ScoringEngine source is
missing from the snapshot): popularity bias log10(likes + 1) * 0.05, with
the base-10 logarithm abstract as `lg`. -/
def popularityBias (lg : ℕ → ℚ) (post : Post) : ℚ :=
  lg (post.likes + 1) * (1 / 20)

/-- Modelled from the spec, section 4.2 step 2: for each post tag find the
first matching interest and accumulate interest.weight * relevance,
tracking the count of matched tags. -/
def interestScan (canon : String → String) (post : Post) (profile : UserProfile) : ℚ × ℕ :=
  post.tags.foldl
    (fun acc t =>
      match profile.interests.find? (fun i => tagMatches canon i.tag t) with
      | some i => (acc.1 + i.weight * tagRelevance post t, acc.2 + 1)
      | none => acc)
    (0, 0)

/-- Modelled from the spec, section 4.2 step 3: synergy bonus
(hitCount - 1) * 5 when more than one interest matched. -/
def synergyBonus (hits : ℕ) : ℚ :=
  if 1 < hits then ((hits : ℚ) - 1) * 5 else 0

/-- Modelled from the spec, section 4.2 step 4: for each post tag the first
matching dislike, paired with its impact dislike.weight * relevance. -/
def dislikeHits (canon : String → String) (post : Post) (profile : UserProfile) :
    List (String × ℚ) :=
  post.tags.filterMap
    (fun t =>
      (profile.dislikes.find? (fun d => tagMatches canon d.tag t)).map
        (fun d => (t, d.weight * tagRelevance post t)))

/-- Largest dislike impact over the post's tags (0 when no dislike matches),
the quantity the veto threshold of the spec is compared against. -/
def maxDislikeImpact (canon : String → String) (post : Post) (profile : UserProfile) : ℚ :=
  (dislikeHits canon post profile).foldr (fun x m => max x.2 m) 0

/-- Modelled from the spec, section 4.2 step 4: the veto flag, set when some
matched dislike impact reaches the threshold 25. -/
def vetoFlag (canon : String → String) (post : Post) (profile : UserProfile) : Bool :=
  (dislikeHits canon post profile).any (fun x => decide (25 ≤ x.2))

/-- Tag that triggered the veto, when any. -/
def vetoTagOf (canon : String → String) (post : Post) (profile : UserProfile) : Option String :=
  ((dislikeHits canon post profile).find? (fun x => decide (25 ≤ x.2))).map (fun x => x.1)

/-- Modelled from the spec, section 4.2 steps 1-4: the score before veto
application: popularity + interest reward * 4 + synergy - 5 * total
dislike impact. -/
def preScore (lg : ℕ → ℚ) (canon : String → String) (post : Post) (profile : UserProfile) : ℚ :=
  popularityBias lg post + (interestScan canon post profile).1 * 4 +
    synergyBonus (interestScan canon post profile).2 -
    5 * ((dislikeHits canon post profile).map (fun x => x.2)).sum

/-- Result of scoring one post: the value and the ordered reason list. -/
structure ScoreResult where
  value : ℚ
  reason : List String
deriving DecidableEq

/-- Human-readable reason entries for the matched interests and dislikes.
The spec fixes only the shape of the veto marker, so the entry texts here
are schematic. -/
def baseReasons (canon : String → String) (post : Post) (profile : UserProfile) : List String :=
  (post.tags.filter (fun t => profile.interests.any (fun i => tagMatches canon i.tag t))).map
      (fun t => "interest hit: " ++ t) ++
    (dislikeHits canon post profile).map (fun x => "dislike hit: " ++ x.1)

/-- Modelled from the spec, section 4.2 (the canonical ScoringEngine source
is missing from the snapshot): full scoring of one post, applying the veto
replacement -1000 - score * 0.1 and prepending the blocked-by marker when
some dislike impact reaches 25. -/
def calculateRelevanceScore (lg : ℕ → ℚ) (canon : String → String)
    (post : Post) (profile : UserProfile) : ScoreResult :=
  if vetoFlag canon post profile then
    { value := -1000 - preScore lg canon post profile * (1 / 10),
      reason := ("blocked by " ++ (vetoTagOf canon post profile).getD "") ::
        baseReasons canon post profile }
  else
    { value := preScore lg canon post profile,
      reason := baseReasons canon post profile }

/-- Descending order on score-carrying pairs, the comparison the ranking
sort uses. -/
def scoreDesc {α : Type} {β : Type} [LinearOrder β] : (α × β) → (α × β) → Prop :=
  fun a b => b.2 ≤ a.2

instance {α β : Type} [LinearOrder β] : DecidableRel (scoreDesc (α := α) (β := β)) :=
  fun a b => inferInstanceAs (Decidable (b.2 ≤ a.2))

instance {α β : Type} [LinearOrder β] : IsTotal (α × β) scoreDesc :=
  ⟨fun a b => le_total b.2 a.2⟩

instance {α β : Type} [LinearOrder β] : IsTrans (α × β) scoreDesc :=
  ⟨fun _ _ _ h1 h2 => le_trans h2 h1⟩

/-- Modelled from the spec, section 4.2: score every post and sort
descending by value with a stable sort.  A stable sort's output is unique,
so the structural insertion sort here agrees with any stable sorting
routine the runtime uses. -/
def rankPosts (lg : ℕ → ℚ) (canon : String → String)
    (posts : List Post) (profile : UserProfile) : List (Post × ℚ) :=
  List.insertionSort scoreDesc
    (posts.map (fun p => (p, (calculateRelevanceScore lg canon p profile).value)))

/-- One invocation of the scoring function, embedded with an explicit
exploration-noise environment standing for the stream of Math.random draws
a call could observe.  Modelled from the spec, sections 4.2 and 9: the
canonical scoring path contains no randomized term (only historical
variants of the engine did), so the body consumes no draw. -/
def scoreInvocation (noise : ℕ → ℚ) (lg : ℕ → ℚ) (canon : String → String)
    (post : Post) (profile : UserProfile) : ScoreResult :=
  calculateRelevanceScore lg canon post profile

/-- Modelled from the spec, section 4.3: lowercased whitespace tokens of an
explicit query. -/
def tokenizeQuery (q : String) : List String :=
  (q.toLower.split Char.isWhitespace).filter (fun t => !t.isEmpty)

/-- Modelled from the spec, section 4.3: substring hits of the tokens
across the post's bilingual title and tag list. -/
def postHits (tokens : List String) (p : Post) : ℕ :=
  tokens.foldl
    (fun acc t =>
      acc + (if strSub t p.title.en.toLower || strSub t p.title.zh.toLower then 1 else 0) +
        (p.tags.filter (fun tg => strSub t tg.toLower)).length)
    0

/-- Modelled from the spec, section 4.3: posts with a positive hit count,
sorted descending by hit count. -/
def keywordRanked (q : String) (posts : List Post) : List Post :=
  (List.insertionSort scoreDesc
      ((posts.map (fun p => (p, postHits (tokenizeQuery q) p))).filter
        (fun x => decide (0 < x.2)))).map (fun x => x.1)

/-- Modelled from the spec, section 4.3: Pool A, the top 15 posts by rank. -/
def poolA (lg : ℕ → ℚ) (canon : String → String)
    (posts : List Post) (profile : UserProfile) : List Post :=
  ((rankPosts lg canon posts profile).take 15).map (fun x => x.1)

/-- Modelled from the spec, section 4.3: Pool B, up to 10 keyword-ranked
posts not already in Pool A. -/
def poolB (lg : ℕ → ℚ) (canon : String → String)
    (posts : List Post) (profile : UserProfile) (q : String) : List Post :=
  ((keywordRanked q posts).filter
      (fun p => !(((poolA lg canon posts profile).map (fun a => a.id)).contains p.id))).take 10

/-- Modelled from the spec, section 4.3 (getHybridFeed, whose source is
missing from the snapshot; App.tsx only calls it): without a query the top
25 by rank, with a query Pool A concatenated with Pool B. -/
def getHybridFeed (lg : ℕ → ℚ) (canon : String → String)
    (posts : List Post) (profile : UserProfile) : Option String → List Post
  | none => ((rankPosts lg canon posts profile).take 25).map (fun x => x.1)
  | some q => poolA lg canon posts profile ++ poolB lg canon posts profile q

/-- Replace the first element satisfying the test, or report that none does.
Functional rendering of the findIndex-then-mutate pattern of App.tsx. -/
def updateFirst (p : α → Bool) (f : α → α) : List α → Option (List α)
  | [] => none
  | x :: xs => if p x then some (f x :: xs) else (updateFirst p f xs).map (fun l => x :: l)

/-- Remove the first element satisfying the test, if any.  Functional
rendering of the findIndex-then-splice pattern of App.tsx. -/
def dropFirstMatch (p : α → Bool) : List α → List α
  | [] => []
  | x :: xs => if p x then xs else x :: dropFirstMatch p xs

/-- Two-phase update from App.tsx: look for an exact tag match first, then
for a normalized match, apply `f` to the entry found; otherwise append the
optional new entry. -/
def upsertTag (norm : String → String) (tagStr : String) (f : WeightedTag → WeightedTag)
    (ins : Option WeightedTag) (l : List WeightedTag) : List WeightedTag :=
  match updateFirst (fun e => e.tag == tagStr) f l with
  | some l' => l'
  | none =>
    match updateFirst (fun e => norm e.tag == norm tagStr) f l with
    | some l' => l'
    | none =>
      match ins with
      | some w => l ++ [w]
      | none => l

/-- Maximum stored tag weight, from App.tsx (MAX_TAG_WEIGHT). -/
def MAX_TAG_WEIGHT : ℚ := 40

/-- One interest-category adjustment, from App.tsx handleFeedbackSubmit:
remove the first normalized match from dislikes, then boost the matching
interest (clamped to MAX_TAG_WEIGHT, refreshing the stored tag casing) or
create it at min(delta, MAX_TAG_WEIGHT) when delta is positive. -/
def applyInterestAdj (norm : String → String) (adj : TagAdjustment)
    (acc : List WeightedTag × List WeightedTag) : List WeightedTag × List WeightedTag :=
  (upsertTag norm adj.tag
      (fun e => { tag := adj.tag, weight := min (e.weight + adj.delta) MAX_TAG_WEIGHT })
      (if 0 < adj.delta then some { tag := adj.tag, weight := min adj.delta MAX_TAG_WEIGHT }
       else none)
      acc.1,
   dropFirstMatch (fun e => norm e.tag == norm adj.tag) acc.2)

/-- One dislike-category adjustment, from App.tsx handleFeedbackSubmit:
remove the first normalized match from interests, then boost the matching
dislike by the absolute delta (clamped) or create it when the magnitude is
positive. -/
def applyDislikeAdj (norm : String → String) (adj : TagAdjustment)
    (acc : List WeightedTag × List WeightedTag) : List WeightedTag × List WeightedTag :=
  (dropFirstMatch (fun e => norm e.tag == norm adj.tag) acc.1,
   upsertTag norm adj.tag
      (fun e => { tag := e.tag, weight := min (e.weight + |adj.delta|) MAX_TAG_WEIGHT })
      (if 0 < |adj.delta| then some { tag := adj.tag, weight := min |adj.delta| MAX_TAG_WEIGHT }
       else none)
      acc.2)

/-- One adjustment step, dispatching on the category, from App.tsx. -/
def applyAdjustmentStep (norm : String → String)
    (acc : List WeightedTag × List WeightedTag) (adj : TagAdjustment) :
    List WeightedTag × List WeightedTag :=
  match adj.category with
  | TagCategory.interest => applyInterestAdj norm adj acc
  | TagCategory.dislike => applyDislikeAdj norm adj acc

/-- Full adjustment batch from App.tsx handleFeedbackSubmit: fold the
adjustments over both lists, then prune entries at weight 0.1 or below from
each list, leaving the other profile fields untouched. -/
def applyAdjustments (norm : String → String) (profile : UserProfile)
    (adjs : List TagAdjustment) : UserProfile :=
  let acc := adjs.foldl (applyAdjustmentStep norm) (profile.interests, profile.dislikes)
  { profile with
    interests := acc.1.filter (fun e => decide ((1 / 10 : ℚ) < e.weight)),
    dislikes := acc.2.filter (fun e => decide ((1 / 10 : ℚ) < e.weight)) }

/-- One decay adjustment, from App.tsx triggerBackgroundCleanup: find the
interest by exact then normalized tag, clamp the proposed delta to
[-10, 0], add it, and floor the result at 0.  Nothing is created on a
miss. -/
def applyDecayAdj (norm : String → String) (interests : List WeightedTag)
    (adj : TagAdjustment) : List WeightedTag :=
  upsertTag norm adj.tag
    (fun e => { tag := e.tag, weight := max 0 (e.weight + min 0 (max (-10) adj.delta)) })
    none interests

/-- Full decay batch from App.tsx triggerBackgroundCleanup: with a nonempty
adjustment list, fold the decays over the interests and prune entries at
weight 0.1 or below; with an empty list the profile is left untouched.
Dislikes and the other fields are never modified. -/
def applyDecay (norm : String → String) (profile : UserProfile)
    (decays : List TagAdjustment) : UserProfile :=
  if decays.isEmpty then profile
  else
    { profile with
      interests :=
        (decays.foldl (applyDecayAdj norm) profile.interests).filter
          (fun e => decide ((1 / 10 : ℚ) < e.weight)) }

/-- Reordering of the hybrid candidates by the id list the reranker
returned, from App.tsx triggerRefreshSequence: for each returned id push
the first candidate carrying it (unknown ids are skipped), then append
every candidate whose id was never found, in original candidate order. -/
def reorderFeed (orderedIds : List String) (candidates : List Post) : List Post :=
  let picked := orderedIds.filterMap (fun i => candidates.find? (fun p => p.id == i))
  let used := orderedIds.filter (fun i => (candidates.find? (fun p => p.id == i)).isSome)
  picked ++ candidates.filter (fun p => !(used.contains p.id))

/-- Display state of the feed around the re-rank stage: the ordering shown
to the user and the optional re-ranked result held for confirmation, from
App.tsx (allRankedPosts and pendingSmartFeed). -/
structure FeedView where
  displayed : List Post
  pending : Option (List Post)
deriving DecidableEq

/-- Resolution of the reranker call, from App.tsx triggerRefreshSequence:
below 3000 ms the re-ranked feed is displayed immediately with no pending
entry, otherwise the display is untouched and the result is stored as
pending. -/
def resolveRerank (elapsedMs : ℕ) (smartFeed : List Post) (st : FeedView) : FeedView :=
  if elapsedMs < 3000 then { displayed := smartFeed, pending := none }
  else { st with pending := some smartFeed }

/-- Explicit user apply action, from App.tsx handleApplySmartSort: promote
the pending feed to the display, if any. -/
def applySmartSort (st : FeedView) : FeedView :=
  match st.pending with
  | none => st
  | some f => { displayed := f, pending := none }

/-- Outcome of one callGroqWithRetry call as its callers observe it, from
services/geminiService.ts.  Three cases are distinguishable at the call
site: the promise rejects (a non-429 failure on the final attempt is
rethrown from the catch inside the retry loop); the promise resolves
undefined (an HTTP 429 takes the continue branch, never the catch, so
three consecutive 429s exhaust the loop and the function falls off its end
without returning a value and without throwing); or the promise resolves
the parsed JSON payload. -/
inductive GroqOutcome (α : Type) where
  | thrown (e : String)
  | resolvedNone
  | resolved (payload : α)
deriving DecidableEq

/-- Parsed JSON payload of the intent-analysis call.  No schema is
enforced client-side, so each field of the declared
FeedbackAnalysisResult interface may be absent at runtime. -/
structure AnalysisPayload where
  adjustments : Option (List TagAdjustment)
  user_note : Option String
  explicit_search_query : Option String
deriving DecidableEq

/-- Value the intent-analysis boundary hands back to the pipeline.  The
declared TypeScript return type promises an adjustments list, but the
success path spreads the resolved value into the returned object without
supplying defaults, so every field can be absent at runtime; absent and
null are conflated here. -/
structure AnalysisHandoff where
  adjustments : Option (List TagAdjustment)
  user_note : Option String
  explicit_search_query : Option String
deriving DecidableEq

/-- Boundary of the intent-analysis collaborator, from
services/geminiService.ts analyzeFeedback: an empty tag vocabulary
short-circuits to the explicit failure result, and a thrown collaborator
error is caught and converted to the neutral empty-adjustments fallback;
but a call that resolves — undefined after rate-limit exhaustion, or any
parsed JSON — is spread into the returned object as-is.  Spreading
undefined is legal in JavaScript and contributes nothing, so the result
then has no adjustments field, and a payload with absent fields keeps
them absent: no fallback runs on the resolved paths. -/
def analyzeFeedbackResult (availableTags : List String)
    (llm : GroqOutcome AnalysisPayload) : AnalysisHandoff :=
  if availableTags.isEmpty then
    { adjustments := some [],
      user_note := some "Analysis Failed: Tag vocabulary not loaded. Please refresh the page.",
      explicit_search_query := none }
  else
    match llm with
    | GroqOutcome.thrown e =>
      { adjustments := some [],
        user_note := some ("Analysis Failed. Error: " ++ e),
        explicit_search_query := none }
    | GroqOutcome.resolvedNone =>
      { adjustments := none, user_note := none, explicit_search_query := none }
    | GroqOutcome.resolved r =>
      { adjustments := r.adjustments, user_note := r.user_note,
        explicit_search_query := r.explicit_search_query }

/-- Read the pipeline performs on the handoff in App.tsx, the
analysis.adjustments.length guard: when the adjustments field is absent
this read has no value — at that point the real code throws a TypeError
inside handleFeedbackSubmit. -/
def pipelineAdjustmentsRead (h : AnalysisHandoff) : Option ℕ :=
  h.adjustments.map (fun l => l.length)

/-- Parsed JSON payload of the rerank call; the ids field may be absent. -/
structure RerankPayload where
  ids : Option (List String)
deriving DecidableEq

/-- Boundary of the reranking collaborator, from services/geminiService.ts
rerankFeed: an empty candidate list short-circuits to an empty id list; on
a resolved payload a missing ids field defaults to the empty list; when
the call resolves undefined, reading ids off it throws a TypeError inside
the try block, and the catch converts it — like a thrown collaborator
error — to the original candidate id order. -/
def rerankFeedResult (topPosts : List Post)
    (llm : GroqOutcome RerankPayload) : List String :=
  if topPosts.isEmpty then []
  else
    match llm with
    | GroqOutcome.resolved r => r.ids.getD []
    | GroqOutcome.resolvedNone => topPosts.map (fun p => p.id)
    | GroqOutcome.thrown _ => topPosts.map (fun p => p.id)

/-- One decay suggestion of the cleanup collaborator, from
services/geminiService.ts pruneUserProfile. -/
structure PruneDecay where
  tag : String
  delta : ℚ
deriving DecidableEq

/-- Parsed JSON payload of the cleanup call; both fields may be absent. -/
structure PrunePayload where
  decay : Option (List PruneDecay)
  reason : Option String
deriving DecidableEq

/-- Boundary of the cleanup collaborator, from services/geminiService.ts
pruneUserProfile: short feedback history or a small interest list skips
cleanup; a resolved payload maps its decay list (defaulted to empty) to
interest adjustments with deltas forced negative; when the call resolves
undefined, the logging read of decay off it throws a TypeError inside the
try block, and the catch converts it — like a thrown collaborator error —
to the empty adjustment list (the TypeError message text in the reason
string is environment-dependent and modelled schematically). -/
def pruneUserProfileResult (history : List String) (profile : UserProfile)
    (llm : GroqOutcome PrunePayload) : List TagAdjustment × String :=
  if history.length < 3 then
    ([], "History too short (" ++ toString history.length ++
      " items). Need at least 3 feedbacks before cleanup.")
  else if profile.interests.length < 3 then ([], "Profile too small")
  else
    match llm with
    | GroqOutcome.resolved r =>
      ((r.decay.getD []).map
          (fun d =>
            let nd : ℚ := if d.delta < 0 then d.delta else -(abs d.delta)
            { tag := d.tag, category := TagCategory.interest, delta := nd }),
       r.reason.getD "Routine cleanup")
    | GroqOutcome.resolvedNone =>
      ([], "Error: TypeError reading decay of undefined")
    | GroqOutcome.thrown e => ([], "Error: " ++ e)

/-! Theorems.  Claim theorems are stated over the definitions above; shared
helper lemmas precede them. -/

/-- Post of testable-properties Scenario 1 of the spec. -/
def scenario1Post : Post :=
  { id := "s1", title := { en := "food post", zh := "food" }, tags := ["Food"],
    tagWeights := [("Food", 2)], likes := 9 }

/-- Profile of testable-properties Scenario 1 of the spec. -/
def scenario1Profile : UserProfile :=
  { id := "u1", name := "user", bio := "bio", interests := [⟨"Food", 5⟩], dislikes := [] }

/-- C2: for the Scenario 1 inputs (one interest Food at weight 5, post tag
relevance 2, 9 likes) the interest reward is 5 * 2 * 4 = 40, the popularity
bias is log10(10) * 0.05 = 0.05, there is exactly one interest hit (so no
synergy bonus), no veto fires, and the total score is exactly 40.05.  The
hypotheses pin the two facts about the abstract environment the scenario
uses: log10 10 = 1 and the canonical key of Food is nonempty. -/
theorem claim2_scenario1_score (lg : ℕ → ℚ) (canon : String → String)
    (h10 : lg 10 = 1) (hfood : canon "Food" ≠ "") :
    (interestScan canon scenario1Post scenario1Profile).1 * 4 = 40 ∧
    (interestScan canon scenario1Post scenario1Profile).2 = 1 ∧
    popularityBias lg scenario1Post = 1 / 20 ∧
    synergyBonus (interestScan canon scenario1Post scenario1Profile).2 = 0 ∧
    vetoFlag canon scenario1Post scenario1Profile = false ∧
    (calculateRelevanceScore lg canon scenario1Post scenario1Profile).value = 801 / 20 := by
  have hb : (canon "Food" == "") = false := beq_eq_false_iff_ne.mpr hfood
  have hb' : decide (canon "Food" = "") = false := decide_eq_false hfood
  refine ⟨?_, ?_, ?_, ?_, ?_, ?_⟩ <;>
    simp [interestScan, popularityBias, synergyBonus, vetoFlag, dislikeHits,
      calculateRelevanceScore, preScore, tagRelevance, tagMatches, hb, hb', h10,
      scenario1Post, scenario1Profile, List.find?_cons, List.find?_nil] <;>
    norm_num

/-- C2 witness: the theorem applied at a concrete logarithm table and the
identity as canonical-key function. -/
theorem claim2_scenario1_score_witness :
    (calculateRelevanceScore (fun n => if n = 10 then (1 : ℚ) else 0) (fun s => s)
        scenario1Post scenario1Profile).value = 801 / 20 :=
  (claim2_scenario1_score (fun n => if n = 10 then (1 : ℚ) else 0) (fun s => s)
      (by norm_num) (by simp)).2.2.2.2.2

/-- C3: the canonical scoring path is deterministic: the outcome of an
invocation, the numeric value and the reason list alike, is independent of
the exploration-noise environment the call could have observed, so two
calls at the same post and profile agree. -/
theorem claim3_score_deterministic (noise₁ noise₂ lg : ℕ → ℚ) (canon : String → String)
    (post : Post) (profile : UserProfile) :
    (scoreInvocation noise₁ lg canon post profile).value =
      (scoreInvocation noise₂ lg canon post profile).value ∧
    (scoreInvocation noise₁ lg canon post profile).reason =
      (scoreInvocation noise₂ lg canon post profile).reason :=
  ⟨rfl, rfl⟩

/-- C7: when the reranker call resolves in under 3000 ms the re-ranked feed
replaces the display immediately and nothing is left pending; otherwise
the display is untouched, the result is stored pending, and only the
explicit apply action promotes it to the display. -/
theorem claim7_rerank_apply (d : ℕ) (f : List Post) (st : FeedView) :
    (d < 3000 → resolveRerank d f st = { displayed := f, pending := none }) ∧
    (3000 ≤ d →
      (resolveRerank d f st).displayed = st.displayed ∧
      (resolveRerank d f st).pending = some f ∧
      applySmartSort (resolveRerank d f st) = { displayed := f, pending := none }) := by
  constructor
  · intro h
    simp [resolveRerank, h]
  · intro h
    have h' : ¬ d < 3000 := not_lt.mpr h
    simp [resolveRerank, h', applySmartSort]

/-- C7 witness: the theorem applied at a 100 ms resolution and at a 5000 ms
resolution. -/
theorem claim7_rerank_apply_witness :
    resolveRerank 100 [] ⟨[], none⟩ = ⟨[], none⟩ ∧
    (resolveRerank 5000 [] ⟨[], none⟩).pending = some [] :=
  ⟨(claim7_rerank_apply 100 [] ⟨[], none⟩).1 (by norm_num),
   ((claim7_rerank_apply 5000 [] ⟨[], none⟩).2 (by norm_num)).2.1⟩

/-- C9: the claim fails at the intent-analysis boundary.  When the
collaborator call resolves undefined after rate-limit exhaustion, the
boundary hands the pipeline an object with no adjustments field at all —
not the neutral empty-adjustments result — and the pipeline guard reading
adjustments.length has no value to read (the real code throws a TypeError
there); a resolved payload lacking the adjustments field passes through
the same way.  By contrast, every thrown error at all three boundaries,
and the undefined resolution at the reranking and cleanup boundaries, is
converted to the neutral result the claim describes. -/
theorem claim9_rate_limit_gap :
    (analyzeFeedbackResult ["Food"] GroqOutcome.resolvedNone).adjustments = none ∧
    pipelineAdjustmentsRead (analyzeFeedbackResult ["Food"] GroqOutcome.resolvedNone) = none ∧
    (analyzeFeedbackResult ["Food"]
      (GroqOutcome.resolved ⟨none, some "ok", none⟩)).adjustments = none ∧
    (∀ (tags : List String) (e : String),
      (analyzeFeedbackResult tags (GroqOutcome.thrown e)).adjustments = some []) ∧
    (∀ (posts : List Post) (e : String),
      rerankFeedResult posts GroqOutcome.resolvedNone = posts.map (fun p => p.id) ∧
      rerankFeedResult posts (GroqOutcome.thrown e) = posts.map (fun p => p.id)) ∧
    (∀ (hist : List String) (p : UserProfile) (e : String),
      (pruneUserProfileResult hist p GroqOutcome.resolvedNone).1 = [] ∧
      (pruneUserProfileResult hist p (GroqOutcome.thrown e)).1 = []) := by
  refine ⟨rfl, rfl, rfl, ?_, ?_, ?_⟩
  · intro tags e
    by_cases h : tags.isEmpty <;> simp [analyzeFeedbackResult, h]
  · intro posts e
    by_cases h : posts.isEmpty
    · rw [List.isEmpty_iff] at h
      subst h
      simp [rerankFeedResult]
    · constructor <;> simp [rerankFeedResult, h]
  · intro hist p e
    constructor <;>
      · unfold pruneUserProfileResult
        split_ifs <;> simp

/-- C10: profile mutations only touch the interest and dislike lists: the
id, name and bio fields survive any adjustment batch and any decay batch
unchanged. -/
theorem claim10_profile_frame (norm : String → String) (p : UserProfile)
    (adjs decays : List TagAdjustment) :
    (applyAdjustments norm p adjs).id = p.id ∧
    (applyAdjustments norm p adjs).name = p.name ∧
    (applyAdjustments norm p adjs).bio = p.bio ∧
    (applyDecay norm p decays).id = p.id ∧
    (applyDecay norm p decays).name = p.name ∧
    (applyDecay norm p decays).bio = p.bio := by
  refine ⟨rfl, rfl, rfl, ?_, ?_, ?_⟩ <;>
    · unfold applyDecay
      split <;> rfl

/-- C6: with an explicit query the retrieval result is exactly Pool A
followed by Pool B; every Pool B post has a positive keyword hit count and
an id absent from Pool A (so the pools are disjoint); and the candidate
set has at most 15 + 10 = 25 posts. -/
theorem claim6_hybrid_pools (lg : ℕ → ℚ) (canon : String → String)
    (posts : List Post) (profile : UserProfile) (q : String) :
    getHybridFeed lg canon posts profile (some q) =
      poolA lg canon posts profile ++ poolB lg canon posts profile q ∧
    (poolB lg canon posts profile q).all
        (fun p => !(((poolA lg canon posts profile).map (fun a => a.id)).contains p.id) &&
          decide (0 < postHits (tokenizeQuery q) p)) = true ∧
    (getHybridFeed lg canon posts profile (some q)).length ≤ 25 := by
  refine ⟨rfl, ?_, ?_⟩
  · rw [List.all_eq_true]
    intro p hp
    have h1 : p ∈ (keywordRanked q posts).filter
        (fun p => !(((poolA lg canon posts profile).map (fun a => a.id)).contains p.id)) :=
      List.take_subset _ _ hp
    have h2 := List.mem_filter.mp h1
    have h3 : 0 < postHits (tokenizeQuery q) p := by
      rcases List.mem_map.mp h2.1 with ⟨x, hx, hx1⟩
      have hx2 : x ∈ (posts.map (fun p => (p, postHits (tokenizeQuery q) p))).filter
          (fun x => decide (0 < x.2)) := (List.mem_insertionSort _).mp hx
      have hx3 := List.mem_filter.mp hx2
      rcases List.mem_map.mp hx3.1 with ⟨p', _, hp'⟩
      have hx4 : 0 < x.2 := of_decide_eq_true hx3.2
      have hx5 : x.2 = postHits (tokenizeQuery q) p := by
        rw [← hp'] at hx1 ⊢
        simp at hx1 ⊢
        rw [hx1]
      rw [← hx5]
      exact hx4
    have h4 := h2.2
    simp at h4 ⊢
    exact ⟨h4, h3⟩
  · have hA : (poolA lg canon posts profile).length ≤ 15 := by
      simp [poolA]
    have hB : (poolB lg canon posts profile q).length ≤ 10 := by
      simp [poolB]
    calc (getHybridFeed lg canon posts profile (some q)).length
        = (poolA lg canon posts profile).length + (poolB lg canon posts profile q).length := by
          simp [getHybridFeed]
      _ ≤ 15 + 10 := Nat.add_le_add hA hB
      _ ≤ 25 := by norm_num

/-- Counting through filterMap: occurrences of b in the image are the
positions whose image is exactly some b. -/
theorem count_filterMap_eq_countP {α β : Type} [DecidableEq β]
    (f : α → Option β) (l : List α) (b : β) :
    (l.filterMap f).count b = l.countP (fun a => f a == some b) := by
  induction l with
  | nil => simp
  | cons hd tl ih =>
    cases h : f hd with
    | none => simp [List.filterMap_cons, List.countP_cons, h, ih]
    | some v =>
      by_cases hv : v = b <;>
        simp [List.filterMap_cons, List.countP_cons, List.count_cons, h, ih, hv]

/-- With pairwise-distinct candidate ids, the lookup of a candidate's own
id returns that candidate. -/
theorem find_by_id_of_nodup (c : Post) (cands : List Post) (hc : c ∈ cands)
    (hN : (cands.map (fun p => p.id)).Nodup) :
    cands.find? (fun p => p.id == c.id) = some c := by
  induction cands with
  | nil => cases hc
  | cons hd tl ih =>
    rw [List.map_cons, List.nodup_cons] at hN
    rcases List.mem_cons.mp hc with h | h
    · subst h
      simp [List.find?_cons]
    · have hid : ¬ hd.id = c.id := by
        intro he
        exact hN.1 (he ▸ List.mem_map.mpr ⟨c, h, rfl⟩)
      have : (hd.id == c.id) = false := beq_eq_false_iff_ne.mpr hid
      rw [List.find?_cons, this]
      exact ih h hN.2

/-- Boolean membership agrees with membership for string lists. -/
theorem contains_iff_mem (l : List String) (s : String) : l.contains s = true ↔ s ∈ l := by
  rw [List.contains_eq_any_beq, List.any_eq_true]
  constructor
  · rintro ⟨x, hx, hb⟩
    exact (eq_of_beq hb) ▸ hx
  · intro h
    exact ⟨s, h, beq_self_eq_true s⟩

/-- Counting survives a filter whose test the counted element passes. -/
theorem count_filter_of_pred {α : Type} [DecidableEq α] (p : α → Bool) (l : List α) (b : α)
    (h : p b = true) : (l.filter p).count b = l.count b := by
  induction l with
  | nil => rfl
  | cons hd tl ih =>
    by_cases hb : hd = b
    · subst hb
      simp [List.filter_cons, h, List.count_cons, ih]
    · cases hp : p hd <;>
        simp [List.filter_cons, hp, List.count_cons, ih, hb]

/-- Membership in a duplicate-free-by-id list pins the count to one. -/
theorem count_eq_one_of_nodup_ids (c : Post) (cands : List Post) (hc : c ∈ cands)
    (hN : (cands.map (fun p => p.id)).Nodup) : cands.count c = 1 := by
  have hnd : cands.Nodup := List.Nodup.of_map _ hN
  have hle := (List.nodup_iff_count_le_one.mp hnd) c
  have hpos : 0 < cands.count c := List.count_pos_iff.mpr hc
  omega

/-- C8 (amended): for a duplicate-free id list returned by the reranker
over candidates with pairwise-distinct ids, the reordered candidate prefix
contains every hybrid candidate exactly once, and contains nothing but
candidates (ids outside the candidate set are ignored; candidates missing
from the returned list are appended by the trailing filter in original
candidate order). -/
theorem claim8_reorder_amended (orderedIds : List String) (candidates : List Post)
    (hN : (candidates.map (fun p => p.id)).Nodup) (hO : orderedIds.Nodup) :
    (∀ c ∈ candidates, (reorderFeed orderedIds candidates).count c = 1) ∧
    (∀ x ∈ reorderFeed orderedIds candidates, x ∈ candidates) := by
  constructor
  · intro c hc
    rw [reorderFeed, List.count_append]
    have hpick : (orderedIds.filterMap
          (fun i => candidates.find? (fun p => p.id == i))).count c =
        orderedIds.countP (fun i => i == c.id) := by
      rw [count_filterMap_eq_countP]
      refine List.countP_congr (fun i _ => ?_)
      constructor
      · intro h
        have hfi : candidates.find? (fun p => p.id == i) = some c := eq_of_beq h
        have := List.find?_some hfi
        have : c.id = i := eq_of_beq this
        exact beq_iff_eq.mpr this.symm
      · intro h
        have hi : i = c.id := eq_of_beq h
        subst hi
        exact beq_iff_eq.mpr (find_by_id_of_nodup c candidates hc hN)
    have husedmem : ∀ s ∈ orderedIds.filter
        (fun i => (candidates.find? (fun p => p.id == i)).isSome), s ∈ orderedIds :=
      fun s hs => (List.mem_filter.mp hs).1
    by_cases hmem : c.id ∈ orderedIds
    · have h1 : orderedIds.countP (fun i => i == c.id) = 1 := by
        rw [← List.count_eq_countP]
        have hle := (List.nodup_iff_count_le_one.mp hO) c.id
        have hpos : 0 < orderedIds.count c.id := List.count_pos_iff.mpr hmem
        omega
      have hused : c.id ∈ orderedIds.filter
          (fun i => (candidates.find? (fun p => p.id == i)).isSome) := by
        refine List.mem_filter.mpr ⟨hmem, ?_⟩
        rw [find_by_id_of_nodup c candidates hc hN]
        rfl
      have h2 : (candidates.filter
          (fun p => !((orderedIds.filter
            (fun i => (candidates.find? (fun p => p.id == i)).isSome)).contains p.id))).count c
          = 0 := by
        rw [List.count_eq_zero]
        intro hcf
        have hpred := (List.mem_filter.mp hcf).2
        rw [Bool.not_eq_true'] at hpred
        rw [(contains_iff_mem _ _).mpr hused] at hpred
        exact Bool.noConfusion hpred
      rw [hpick, h1, h2]
    · have h1 : orderedIds.countP (fun i => i == c.id) = 0 := by
        rw [List.countP_eq_zero]
        intro a ha hab
        exact hmem (eq_of_beq hab ▸ ha)
      have h2 : (candidates.filter
          (fun p => !((orderedIds.filter
            (fun i => (candidates.find? (fun p => p.id == i)).isSome)).contains p.id))).count c
          = 1 := by
        have hkeep : (fun p : Post => !((orderedIds.filter
            (fun i => (candidates.find? (fun p => p.id == i)).isSome)).contains p.id)) c
            = true := by
          rw [Bool.not_eq_true']
          refine Bool.eq_false_iff.mpr (fun hcon => ?_)
          exact hmem (husedmem c.id ((contains_iff_mem _ _).mp hcon))
        have h3 := count_filter_of_pred
          (fun p : Post => !((orderedIds.filter
            (fun i => (candidates.find? (fun p => p.id == i)).isSome)).contains p.id))
          candidates c hkeep
        rw [h3]
        exact count_eq_one_of_nodup_ids c candidates hc hN
      rw [hpick, h1, h2]
  · intro x hx
    rw [reorderFeed] at hx
    rcases List.mem_append.mp hx with h | h
    · rcases List.mem_filterMap.mp h with ⟨i, _, hfi⟩
      exact List.mem_of_find?_eq_some hfi
    · exact (List.mem_filter.mp h).1

/-- Candidate used by the reorder counterexample and witness. -/
def cexPost : Post :=
  { id := "a", title := { en := "a", zh := "a" }, tags := [], tagWeights := [], likes := 0 }

/-- C8 counterexample: the claim quantifies over every id list the reranker
returns, but when the returned list repeats a candidate id the loop pushes
the candidate once per occurrence: for candidates [cexPost] and returned
ids [a, a] the candidate appears twice, not exactly once. -/
theorem claim8_counterexample :
    cexPost ∈ [cexPost] ∧ (reorderFeed ["a", "a"] [cexPost]).count cexPost = 2 := by
  constructor
  · simp
  · rfl

/-- C8 witness: the amended theorem applied to one candidate and a
duplicate-free returned id list containing one unknown id. -/
theorem claim8_reorder_amended_witness :
    ([cexPost].map (fun p => p.id)).Nodup ∧ (["zz", "a"] : List String).Nodup ∧
    (reorderFeed ["zz", "a"] [cexPost]).count cexPost = 1 :=
  ⟨by simp, by simp,
   (claim8_reorder_amended ["zz", "a"] [cexPost] (by simp) (by simp)).1 cexPost (by simp)⟩

/-- A failed updateFirst means no element passes the test. -/
theorem updateFirst_none {α : Type} (p : α → Bool) (f : α → α) (l : List α)
    (h : updateFirst p f l = none) : ∀ x ∈ l, p x = false := by
  induction l with
  | nil => intro x hx; cases hx
  | cons hd tl ih =>
    intro x hx
    rw [updateFirst] at h
    by_cases hp : p hd = true
    · rw [if_pos hp] at h
      cases h
    · rw [if_neg hp] at h
      rcases List.mem_cons.mp hx with hh | hh
      · subst hh
        exact Bool.eq_false_iff.mpr hp
      · cases hu : updateFirst p f tl with
        | none => exact ih hu x hh
        | some tl' => rw [hu] at h; cases h

/-- A successful updateFirst only rewrites one element that passed the
test; everything in the result is an old element or the image of one. -/
theorem updateFirst_some_mem {α : Type} (p : α → Bool) (f : α → α) (l l' : List α)
    (h : updateFirst p f l = some l') :
    ∀ y ∈ l', y ∈ l ∨ ∃ x, x ∈ l ∧ p x = true ∧ y = f x := by
  induction l generalizing l' with
  | nil => cases h
  | cons hd tl ih =>
    rw [updateFirst] at h
    by_cases hp : p hd = true
    · rw [if_pos hp] at h
      injection h with h
      subst h
      intro y hy
      rcases List.mem_cons.mp hy with hh | hh
      · exact Or.inr ⟨hd, List.mem_cons_self hd tl, hp, hh⟩
      · exact Or.inl (List.mem_cons_of_mem hd hh)
    · rw [if_neg hp] at h
      rcases Option.map_eq_some'.mp h with ⟨tl', htl, hcons⟩
      subst hcons
      intro y hy
      rcases List.mem_cons.mp hy with hh | hh
      · exact Or.inl (hh ▸ List.mem_cons_self hd tl)
      · rcases ih tl' htl y hh with h1 | ⟨x, hx, hpx, hyx⟩
        · exact Or.inl (List.mem_cons_of_mem hd h1)
        · exact Or.inr ⟨x, List.mem_cons_of_mem hd hx, hpx, hyx⟩

/-- When the rewriting function preserves the projection on every element
passing the test, a successful updateFirst preserves the projected list. -/
theorem updateFirst_some_map {α β : Type} (p : α → Bool) (f : α → α) (g : α → β)
    (l l' : List α) (hg : ∀ x, p x = true → g (f x) = g x)
    (h : updateFirst p f l = some l') : l'.map g = l.map g := by
  induction l generalizing l' with
  | nil => cases h
  | cons hd tl ih =>
    rw [updateFirst] at h
    by_cases hp : p hd = true
    · rw [if_pos hp] at h
      injection h with h
      subst h
      simp [hg hd hp]
    · rw [if_neg hp] at h
      rcases Option.map_eq_some'.mp h with ⟨tl', htl, hcons⟩
      subst hcons
      simp [ih tl' htl]

/-- Dropping the first match yields a sublist. -/
theorem dropFirstMatch_sublist {α : Type} (p : α → Bool) (l : List α) :
    (dropFirstMatch p l).Sublist l := by
  induction l with
  | nil => exact List.Sublist.refl []
  | cons hd tl ih =>
    rw [dropFirstMatch]
    by_cases hp : p hd = true
    · rw [if_pos hp]
      exact List.sublist_cons_self hd tl
    · rw [if_neg hp]
      exact List.Sublist.cons₂ hd ih

/-- After dropping the first element carrying the projected key from a list
whose projections are pairwise distinct, the key is gone entirely. -/
theorem dropFirstMatch_no_key {α β : Type} [BEq β] [LawfulBEq β] (g : α → β) (k : β)
    (l : List α) (hnd : (l.map g).Nodup) :
    ∀ x ∈ dropFirstMatch (fun e => g e == k) l, g x ≠ k := by
  induction l with
  | nil => intro x hx; cases hx
  | cons hd tl ih =>
    rw [List.map_cons, List.nodup_cons] at hnd
    rw [dropFirstMatch]
    by_cases hp : (g hd == k) = true
    · rw [if_pos hp]
      intro x hx he
      have hk : g hd = k := eq_of_beq hp
      exact hnd.1 (hk ▸ he ▸ List.mem_map.mpr ⟨x, hx, rfl⟩)
    · rw [if_neg hp]
      intro x hx
      rcases List.mem_cons.mp hx with hh | hh
      · subst hh
        exact fun he => hp (beq_iff_eq.mpr he)
      · exact ih hnd.2 x hh

/-- Case analysis of upsertTag: either an existing entry is rewritten in
place (projected keys unchanged, when the rewrite preserves the key of any
entry it can hit), or no entry carried the key and the result is the list
itself or the list with the fresh entry appended. -/
theorem upsertTag_cases (norm : String → String) (t : String) (f : WeightedTag → WeightedTag)
    (ins : Option WeightedTag) (l : List WeightedTag)
    (hf1 : ∀ x : WeightedTag, (x.tag == t) = true → norm (f x).tag = norm x.tag)
    (hf2 : ∀ x : WeightedTag, (norm x.tag == norm t) = true → norm (f x).tag = norm x.tag) :
    (upsertTag norm t f ins l).map (fun e => norm e.tag) = l.map (fun e => norm e.tag) ∨
    ((∀ x ∈ l, norm x.tag ≠ norm t) ∧
      ((ins = none ∧ upsertTag norm t f ins l = l) ∨
        ∃ w, ins = some w ∧ upsertTag norm t f ins l = l ++ [w])) := by
  rw [upsertTag.eq_def]
  cases h1 : updateFirst (fun e => e.tag == t) f l with
  | some l' =>
    exact Or.inl (updateFirst_some_map _ f _ l l' hf1 h1)
  | none =>
    cases h2 : updateFirst (fun e => norm e.tag == norm t) f l with
    | some l' =>
      exact Or.inl (updateFirst_some_map _ f _ l l' hf2 h2)
    | none =>
      have hno : ∀ x ∈ l, norm x.tag ≠ norm t := by
        intro x hx he
        have := updateFirst_none _ f l h2 x hx
        rw [beq_iff_eq.mpr he] at this
        cases this
      cases ins with
      | none => exact Or.inr ⟨hno, Or.inl ⟨rfl, rfl⟩⟩
      | some w => exact Or.inr ⟨hno, Or.inr ⟨w, rfl, rfl⟩⟩

/-- Every entry of an upsertTag result is an old entry, the rewrite of an
old entry, or the freshly inserted entry. -/
theorem upsertTag_mem (norm : String → String) (t : String) (f : WeightedTag → WeightedTag)
    (ins : Option WeightedTag) (l : List WeightedTag) :
    ∀ y ∈ upsertTag norm t f ins l, y ∈ l ∨ (∃ x, x ∈ l ∧ y = f x) ∨ ins = some y := by
  rw [upsertTag.eq_def]
  cases h1 : updateFirst (fun e => e.tag == t) f l with
  | some l' =>
    intro y hy
    rcases updateFirst_some_mem _ f l l' h1 y hy with h | ⟨x, hx, _, hyx⟩
    · exact Or.inl h
    · exact Or.inr (Or.inl ⟨x, hx, hyx⟩)
  | none =>
    cases h2 : updateFirst (fun e => norm e.tag == norm t) f l with
    | some l' =>
      intro y hy
      rcases updateFirst_some_mem _ f l l' h2 y hy with h | ⟨x, hx, _, hyx⟩
      · exact Or.inl h
      · exact Or.inr (Or.inl ⟨x, hx, hyx⟩)
    | none =>
      cases ins with
      | none => exact fun y hy => Or.inl hy
      | some w =>
        intro y hy
        rcases List.mem_append.mp hy with h | h
        · exact Or.inl h
        · rcases List.mem_singleton.mp h with rfl
          exact Or.inr (Or.inr rfl)

/-- Canonical keys of a weighted-tag list under a normalization function. -/
@[reducible]
def keysOf (norm : String → String) (l : List WeightedTag) : List String :=
  l.map (fun e => norm e.tag)

/-- Key-level disjointness of two weighted-tag lists. -/
def KeysDisj (norm : String → String) (a b : List WeightedTag) : Prop :=
  ∀ k ∈ keysOf norm a, k ∉ keysOf norm b

/-- Key-level disjointness is symmetric. -/
theorem KeysDisj.symm {norm : String → String} {a b : List WeightedTag}
    (h : KeysDisj norm a b) : KeysDisj norm b a :=
  fun k hkb hka => h k hka hkb

/-- Well-formedness of a profile's tag lists: canonical keys are pairwise
distinct inside each list and shared by no pair across the lists.  This is
the inductive invariant behind Invariants A and B of the spec; it holds
for any profile assembled by the adjustment pipeline from an empty or
fresh cold-start profile. -/
def PairWf (norm : String → String) (i d : List WeightedTag) : Prop :=
  (keysOf norm i).Nodup ∧ (keysOf norm d).Nodup ∧ KeysDisj norm i d

/-- Well-formedness of a profile. -/
def ProfileWf (norm : String → String) (p : UserProfile) : Prop :=
  PairWf norm p.interests p.dislikes

/-- Core preservation step shared by both adjustment categories: upserting
a tag into one list while dropping its first key match from the other
preserves per-list key distinctness and cross-list key disjointness. -/
theorem upsert_drop_wf (norm : String → String) (t : String)
    (f : WeightedTag → WeightedTag) (ins : Option WeightedTag) (A B : List WeightedTag)
    (hA : (keysOf norm A).Nodup) (hB : (keysOf norm B).Nodup) (hAB : KeysDisj norm A B)
    (hf1 : ∀ x : WeightedTag, (x.tag == t) = true → norm (f x).tag = norm x.tag)
    (hf2 : ∀ x : WeightedTag, (norm x.tag == norm t) = true → norm (f x).tag = norm x.tag)
    (hins : ∀ w, ins = some w → w.tag = t) :
    (keysOf norm (upsertTag norm t f ins A)).Nodup ∧
    (keysOf norm (dropFirstMatch (fun e => norm e.tag == norm t) B)).Nodup ∧
    KeysDisj norm (upsertTag norm t f ins A)
      (dropFirstMatch (fun e => norm e.tag == norm t) B) := by
  have hBsub : (keysOf norm (dropFirstMatch (fun e => norm e.tag == norm t) B)).Sublist
      (keysOf norm B) := List.Sublist.map _ (dropFirstMatch_sublist _ B)
  have hB' : (keysOf norm (dropFirstMatch (fun e => norm e.tag == norm t) B)).Nodup :=
    List.Nodup.sublist hBsub hB
  have hBnokey : ∀ x ∈ dropFirstMatch (fun e => norm e.tag == norm t) B,
      norm x.tag ≠ norm t :=
    dropFirstMatch_no_key (fun e => norm e.tag) (norm t) B hB
  have hkeys : keysOf norm (upsertTag norm t f ins A) = keysOf norm A ∨
      (keysOf norm (upsertTag norm t f ins A) = keysOf norm A ++ [norm t] ∧
        norm t ∉ keysOf norm A) := by
    rcases upsertTag_cases norm t f ins A hf1 hf2 with h | ⟨hno, hc⟩
    · exact Or.inl h
    · have hnomem : norm t ∉ keysOf norm A := by
        intro hmem
        rcases List.mem_map.mp hmem with ⟨x, hx, hgx⟩
        exact hno x hx hgx
      rcases hc with ⟨_, heq⟩ | ⟨w, hw, heq⟩
      · rw [heq]
        exact Or.inl rfl
      · refine Or.inr ⟨?_, hnomem⟩
        rw [heq]
        simp [keysOf, hins w hw]
  have hdisj : ∀ k ∈ keysOf norm (upsertTag norm t f ins A),
      k ∉ keysOf norm (dropFirstMatch (fun e => norm e.tag == norm t) B) := by
    intro k hk hmem
    rcases List.mem_map.mp hmem with ⟨x, hx, hgx⟩
    by_cases hkt : k = norm t
    · exact hBnokey x hx (hgx.trans hkt)
    · have hkA : k ∈ keysOf norm A := by
        rcases hkeys with h | ⟨h, _⟩
        · exact h ▸ hk
        · rcases List.mem_append.mp (h ▸ hk) with h1 | h1
          · exact h1
          · exact absurd (List.mem_singleton.mp h1) hkt
      exact hAB k hkA (List.Sublist.subset hBsub hmem)
  refine ⟨?_, hB', hdisj⟩
  rcases hkeys with h | ⟨h, hnomem⟩
  · exact h ▸ hA
  · rw [h, List.nodup_append]
    exact ⟨hA, List.nodup_singleton _, by
      intro a ha hb
      exact hnomem ((List.mem_singleton.mp hb) ▸ ha)⟩

/-- One interest adjustment preserves the profile-list invariant. -/
theorem applyInterestAdj_wf (norm : String → String) (adj : TagAdjustment)
    (i d : List WeightedTag) (h : PairWf norm i d) :
    PairWf norm (applyInterestAdj norm adj (i, d)).1 (applyInterestAdj norm adj (i, d)).2 := by
  refine (fun H => ⟨H.1, H.2.1, H.2.2⟩)
    (upsert_drop_wf norm adj.tag _ _ i d h.1 h.2.1 h.2.2 ?_ ?_ ?_)
  · intro x hx
    exact congrArg norm (eq_of_beq hx).symm
  · intro x hx
    exact (eq_of_beq hx).symm
  · intro w hw
    by_cases hp : 0 < adj.delta
    · rw [if_pos hp] at hw
      injection hw with hw
      rw [← hw]
    · rw [if_neg hp] at hw
      cases hw

/-- One dislike adjustment preserves the profile-list invariant. -/
theorem applyDislikeAdj_wf (norm : String → String) (adj : TagAdjustment)
    (i d : List WeightedTag) (h : PairWf norm i d) :
    PairWf norm (applyDislikeAdj norm adj (i, d)).1 (applyDislikeAdj norm adj (i, d)).2 := by
  refine (fun H => ⟨H.2.1, H.1, H.2.2.symm⟩)
    (upsert_drop_wf norm adj.tag _ _ d i h.2.1 h.1 h.2.2.symm ?_ ?_ ?_)
  · intro x hx
    rfl
  · intro x hx
    rfl
  · intro w hw
    by_cases hp : 0 < |adj.delta|
    · rw [if_pos hp] at hw
      injection hw with hw
      rw [← hw]
    · rw [if_neg hp] at hw
      cases hw

/-- One adjustment step preserves the profile-list invariant. -/
theorem applyAdjustmentStep_wf (norm : String → String)
    (acc : List WeightedTag × List WeightedTag) (adj : TagAdjustment)
    (h : PairWf norm acc.1 acc.2) :
    PairWf norm (applyAdjustmentStep norm acc adj).1 (applyAdjustmentStep norm acc adj).2 := by
  rw [applyAdjustmentStep]
  cases adj.category with
  | interest => exact applyInterestAdj_wf norm adj acc.1 acc.2 h
  | dislike => exact applyDislikeAdj_wf norm adj acc.1 acc.2 h

/-- A whole adjustment fold preserves the profile-list invariant. -/
theorem foldl_adjustments_wf (norm : String → String) (adjs : List TagAdjustment)
    (acc : List WeightedTag × List WeightedTag) (h : PairWf norm acc.1 acc.2) :
    PairWf norm (adjs.foldl (applyAdjustmentStep norm) acc).1
      (adjs.foldl (applyAdjustmentStep norm) acc).2 := by
  induction adjs generalizing acc with
  | nil => exact h
  | cons hd tl ih =>
    rw [List.foldl_cons]
    exact ih _ (applyAdjustmentStep_wf norm acc hd h)

/-- Filtering both lists preserves the profile-list invariant. -/
theorem filter_wf (norm : String → String) (g : WeightedTag → Bool)
    (i d : List WeightedTag) (h : PairWf norm i d) :
    PairWf norm (i.filter g) (d.filter g) := by
  refine ⟨List.Nodup.sublist (List.Sublist.map _ (List.filter_sublist i)) h.1,
    List.Nodup.sublist (List.Sublist.map _ (List.filter_sublist d)) h.2.1, ?_⟩
  intro k hk hmem
  rcases List.mem_map.mp hk with ⟨x, hx, hgx⟩
  rcases List.mem_map.mp hmem with ⟨y, hy, hgy⟩
  refine h.2.2 k ?_ ?_
  · exact List.mem_map.mpr ⟨x, List.mem_of_mem_filter hx, hgx⟩
  · exact List.mem_map.mpr ⟨y, List.mem_of_mem_filter hy, hgy⟩

/-- A full adjustment batch preserves profile well-formedness. -/
theorem applyAdjustments_wf (norm : String → String) (p : UserProfile)
    (adjs : List TagAdjustment) (h : ProfileWf norm p) :
    ProfileWf norm (applyAdjustments norm p adjs) := by
  rw [applyAdjustments]
  exact filter_wf norm _ _ _ (foldl_adjustments_wf norm adjs (p.interests, p.dislikes) h)

/-- Boolean form of Invariant A: no canonical tag key occurs in both the
interests and the dislikes of a profile. -/
def exclusiveB (norm : String → String) (p : UserProfile) : Bool :=
  p.interests.all (fun a => p.dislikes.all (fun b => !(norm a.tag == norm b.tag)))

/-- Well-formedness yields the exclusivity test. -/
theorem exclusiveB_of_wf (norm : String → String) (p : UserProfile)
    (h : ProfileWf norm p) : exclusiveB norm p = true := by
  rw [exclusiveB, List.all_eq_true]
  intro a ha
  rw [List.all_eq_true]
  intro b hb
  rw [Bool.not_eq_true']
  refine Bool.eq_false_iff.mpr (fun hcon => ?_)
  have he : norm a.tag = norm b.tag := eq_of_beq hcon
  exact h.2.2 (norm a.tag) (List.mem_map.mpr ⟨a, ha, rfl⟩)
    (he ▸ List.mem_map.mpr ⟨b, hb, rfl⟩)

/-- C4: starting from any well-formed profile (pairwise-distinct canonical
keys inside each list, none shared across them — as holds for a fresh
profile), after any sequence of adjustment batches no canonical tag key
appears in both the interests and the dislikes, and well-formedness itself
is preserved. -/
theorem claim4_exclusivity (norm : String → String) (p : UserProfile)
    (batches : List (List TagAdjustment)) (h : ProfileWf norm p) :
    exclusiveB norm (batches.foldl (applyAdjustments norm) p) = true ∧
    ProfileWf norm (batches.foldl (applyAdjustments norm) p) := by
  have hwf : ProfileWf norm (batches.foldl (applyAdjustments norm) p) := by
    induction batches generalizing p with
    | nil => exact h
    | cons hd tl ih =>
      rw [List.foldl_cons]
      exact ih _ (applyAdjustments_wf norm p hd h)
  exact ⟨exclusiveB_of_wf norm _ hwf, hwf⟩

/-- Profile used by the exclusivity and bounds witnesses (Scenario 4 of the
spec: one Jazz interest at weight 10). -/
def scenario4Profile : UserProfile :=
  { id := "u4", name := "user", bio := "bio", interests := [⟨"Jazz", 10⟩], dislikes := [] }

/-- C4 witness: the theorem applied to the Scenario 4 profile and the batch
that flips Jazz to a dislike, under the identity normalization. -/
theorem claim4_exclusivity_witness :
    ProfileWf (fun s => s) scenario4Profile ∧
    exclusiveB (fun s => s)
      ([[⟨"Jazz", TagCategory.dislike, 8⟩]].foldl (applyAdjustments (fun s => s))
        scenario4Profile) = true :=
  ⟨⟨by simp [keysOf, scenario4Profile], by simp [keysOf, scenario4Profile],
      by intro k hk hm; simp [keysOf, scenario4Profile] at hm⟩,
   (claim4_exclusivity (fun s => s) scenario4Profile [[⟨"Jazz", TagCategory.dislike, 8⟩]]
      ⟨by simp [keysOf, scenario4Profile], by simp [keysOf, scenario4Profile],
        by intro k hk hm; simp [keysOf, scenario4Profile] at hm⟩).1⟩

/-- Upper weight bound on a weighted-tag list. -/
def allLe40 (l : List WeightedTag) : Prop :=
  ∀ e ∈ l, e.weight ≤ MAX_TAG_WEIGHT

/-- Boolean form of Invariant B on one list: every stored weight lies in
(0.1, 40]. -/
def boundedWTB (l : List WeightedTag) : Bool :=
  l.all (fun e => decide ((1 / 10 : ℚ) < e.weight) && decide (e.weight ≤ MAX_TAG_WEIGHT))

/-- Boolean form of Invariant B on a profile. -/
def boundedProfileB (p : UserProfile) : Bool :=
  boundedWTB p.interests && boundedWTB p.dislikes

/-- The bounds test gives the upper bound. -/
theorem allLe40_of_bounded (l : List WeightedTag) (h : boundedWTB l = true) : allLe40 l := by
  intro e he
  have := List.all_eq_true.mp h e he
  rw [Bool.and_eq_true] at this
  exact of_decide_eq_true this.2

/-- One adjustment step keeps all weights at or below the clamp. -/
theorem applyAdjustmentStep_le40 (norm : String → String)
    (acc : List WeightedTag × List WeightedTag) (adj : TagAdjustment)
    (hi : allLe40 acc.1) (hd : allLe40 acc.2) :
    allLe40 (applyAdjustmentStep norm acc adj).1 ∧
    allLe40 (applyAdjustmentStep norm acc adj).2 := by
  rw [applyAdjustmentStep]
  cases adj.category with
  | interest =>
    constructor
    · intro y hy
      rcases upsertTag_mem norm adj.tag _ _ acc.1 y hy with h | ⟨x, _, hyx⟩ | h
      · exact hi y h
      · rw [hyx]
        exact min_le_right _ _
      · by_cases hp : 0 < adj.delta
        · rw [if_pos hp] at h
          injection h with h
          rw [← h]
          exact min_le_right _ _
        · rw [if_neg hp] at h
          cases h
    · intro y hy
      exact hd y (List.Sublist.subset (dropFirstMatch_sublist _ acc.2) hy)
  | dislike =>
    constructor
    · intro y hy
      exact hi y (List.Sublist.subset (dropFirstMatch_sublist _ acc.1) hy)
    · intro y hy
      rcases upsertTag_mem norm adj.tag _ _ acc.2 y hy with h | ⟨x, _, hyx⟩ | h
      · exact hd y h
      · rw [hyx]
        exact min_le_right _ _
      · by_cases hp : 0 < |adj.delta|
        · rw [if_pos hp] at h
          injection h with h
          rw [← h]
          exact min_le_right _ _
        · rw [if_neg hp] at h
          cases h

/-- A whole adjustment fold keeps all weights at or below the clamp. -/
theorem foldl_adjustments_le40 (norm : String → String) (adjs : List TagAdjustment)
    (acc : List WeightedTag × List WeightedTag) (hi : allLe40 acc.1) (hd : allLe40 acc.2) :
    allLe40 (adjs.foldl (applyAdjustmentStep norm) acc).1 ∧
    allLe40 (adjs.foldl (applyAdjustmentStep norm) acc).2 := by
  induction adjs generalizing acc with
  | nil => exact ⟨hi, hd⟩
  | cons hd' tl ih =>
    rw [List.foldl_cons]
    have := applyAdjustmentStep_le40 norm acc hd' hi hd
    exact ih _ this.1 this.2

/-- One decay step can only lower weights, and never below zero, so the
clamp is preserved. -/
theorem applyDecayAdj_le40 (norm : String → String) (l : List WeightedTag)
    (adj : TagAdjustment) (h : allLe40 l) : allLe40 (applyDecayAdj norm l adj) := by
  intro y hy
  rcases upsertTag_mem norm adj.tag _ _ l y hy with hm | ⟨x, hx, hyx⟩ | hm
  · exact h y hm
  · rw [hyx]
    refine max_le (by rw [MAX_TAG_WEIGHT]; norm_num) ?_
    calc x.weight + min 0 (max (-10) adj.delta) ≤ x.weight + 0 :=
          add_le_add_left (min_le_left _ _) _
      _ = x.weight := add_zero _
      _ ≤ MAX_TAG_WEIGHT := h x hx
  · cases hm

/-- A whole decay fold keeps all weights at or below the clamp. -/
theorem foldl_decay_le40 (norm : String → String) (decays : List TagAdjustment)
    (l : List WeightedTag) (h : allLe40 l) :
    allLe40 (decays.foldl (applyDecayAdj norm) l) := by
  induction decays generalizing l with
  | nil => exact h
  | cons hd tl ih =>
    rw [List.foldl_cons]
    exact ih _ (applyDecayAdj_le40 norm l hd h)

/-- After the pruning filter, a list whose weights respect the clamp passes
the full bounds test. -/
theorem boundedWTB_filter (l : List WeightedTag) (h : allLe40 l) :
    boundedWTB (l.filter (fun e => decide ((1 / 10 : ℚ) < e.weight))) = true := by
  rw [boundedWTB, List.all_eq_true]
  intro e he
  rw [Bool.and_eq_true]
  refine ⟨(List.mem_filter.mp he).2, ?_⟩
  exact decide_eq_true (h e (List.mem_of_mem_filter he))

/-- C5: for a profile currently satisfying the bounds invariant, every
weight stored after an adjustment batch and after a decay batch satisfies
0.1 < w and w ≤ MAX_TAG_WEIGHT = 40: updates clamp at 40, decay never
raises a weight, and both batches prune entries at or below 0.1. -/
theorem claim5_weight_bounds (norm : String → String) (p : UserProfile)
    (adjs decays : List TagAdjustment) (h : boundedProfileB p = true) :
    boundedProfileB (applyAdjustments norm p adjs) = true ∧
    boundedProfileB (applyDecay norm p decays) = true := by
  rw [boundedProfileB, Bool.and_eq_true] at h
  have hi : allLe40 p.interests := allLe40_of_bounded _ h.1
  have hd : allLe40 p.dislikes := allLe40_of_bounded _ h.2
  constructor
  · rw [applyAdjustments, boundedProfileB, Bool.and_eq_true]
    have hfold := foldl_adjustments_le40 norm adjs (p.interests, p.dislikes) hi hd
    exact ⟨boundedWTB_filter _ hfold.1, boundedWTB_filter _ hfold.2⟩
  · rw [applyDecay]
    by_cases hde : decays.isEmpty
    · rw [if_pos hde, boundedProfileB, Bool.and_eq_true]
      exact h
    · rw [if_neg hde, boundedProfileB, Bool.and_eq_true]
      exact ⟨boundedWTB_filter _ (foldl_decay_le40 norm decays p.interests hi), h.2⟩

/-- C5 witness: the theorem applied to the Scenario 4 profile, the flip
batch, and a decay batch proposing an oversized delta. -/
theorem claim5_weight_bounds_witness :
    boundedProfileB scenario4Profile = true ∧
    boundedProfileB (applyAdjustments (fun s => s) scenario4Profile
      [⟨"Jazz", TagCategory.dislike, 8⟩]) = true ∧
    boundedProfileB (applyDecay (fun s => s) scenario4Profile
      [⟨"Jazz", TagCategory.interest, -30⟩]) = true := by
  have hb : boundedProfileB scenario4Profile = true := by
    rw [boundedProfileB, boundedWTB, boundedWTB, scenario4Profile]
    norm_num [MAX_TAG_WEIGHT]
  have := claim5_weight_bounds (fun s => s) scenario4Profile
    [⟨"Jazz", TagCategory.dislike, 8⟩] [⟨"Jazz", TagCategory.interest, -30⟩] hb
  exact ⟨hb, this.1, this.2⟩

/-- The veto flag is equivalent to the maximum dislike impact reaching the
threshold 25. -/
theorem vetoFlag_iff_maxImpact (canon : String → String) (post : Post)
    (profile : UserProfile) :
    vetoFlag canon post profile = true ↔ 25 ≤ maxDislikeImpact canon post profile := by
  rw [vetoFlag, maxDislikeImpact]
  induction dislikeHits canon post profile with
  | nil => simp
  | cons x xs ih =>
    simp [List.any_cons, List.foldr_cons, le_max_iff, ih]

/-- Every entry of a ranking result carries the score of its own post. -/
theorem rank_entry_value (lg : ℕ → ℚ) (canon : String → String)
    (posts : List Post) (profile : UserProfile) :
    ∀ x ∈ rankPosts lg canon posts profile,
      x.2 = (calculateRelevanceScore lg canon x.1 profile).value := by
  intro x hx
  rw [rankPosts] at hx
  rcases List.mem_map.mp ((List.mem_insertionSort _).mp hx) with ⟨p, _, hp⟩
  rw [← hp]

/-- The ranking result is sorted by descending score value. -/
theorem rank_sorted_get (lg : ℕ → ℚ) (canon : String → String)
    (posts : List Post) (profile : UserProfile)
    (i j : Fin (rankPosts lg canon posts profile).length) (hij : i < j) :
    ((rankPosts lg canon posts profile).get j).2 ≤
      ((rankPosts lg canon posts profile).get i).2 :=
  List.pairwise_iff_get.mp (List.sorted_insertionSort scoreDesc _) i j hij

/-- C1 (amended): a post whose maximum dislike impact reaches 25 and whose
pre-veto score is nonnegative receives a final score of at most -1000, and
in any rank call such a post sits strictly after every post that is not
vetoed and has a nonnegative ranked score.  The nonnegativity conditions
are forced by the counterexample: the sentinel -1000 - score * 0.1 rises
above -1000 as soon as the pre-veto score is negative. -/
theorem claim1_veto_dominance_amended (lg : ℕ → ℚ) (canon : String → String)
    (posts : List Post) (profile : UserProfile) :
    (∀ post : Post, 25 ≤ maxDislikeImpact canon post profile →
      0 ≤ preScore lg canon post profile →
      (calculateRelevanceScore lg canon post profile).value ≤ -1000) ∧
    (∀ i j : Fin (rankPosts lg canon posts profile).length,
      25 ≤ maxDislikeImpact canon ((rankPosts lg canon posts profile).get i).1 profile →
      0 ≤ preScore lg canon ((rankPosts lg canon posts profile).get i).1 profile →
      maxDislikeImpact canon ((rankPosts lg canon posts profile).get j).1 profile < 25 →
      0 ≤ ((rankPosts lg canon posts profile).get j).2 →
      j < i) := by
  have part1 : ∀ post : Post, 25 ≤ maxDislikeImpact canon post profile →
      0 ≤ preScore lg canon post profile →
      (calculateRelevanceScore lg canon post profile).value ≤ -1000 := by
    intro post h25 hpre
    have hv : vetoFlag canon post profile = true :=
      (vetoFlag_iff_maxImpact canon post profile).mpr h25
    rw [calculateRelevanceScore, if_pos hv]
    have : 0 ≤ preScore lg canon post profile * (1 / 10) := by positivity
    simp only
    linarith
  refine ⟨part1, ?_⟩
  intro i j h25i hprei h25j hvj
  rcases lt_trichotomy j i with h | h | h
  · exact h
  · exfalso
    rw [h] at h25j
    exact absurd (lt_of_le_of_lt h25i h25j) (lt_irrefl _)
  · exfalso
    have hsort := rank_sorted_get lg canon posts profile i j h
    have hvali : ((rankPosts lg canon posts profile).get i).2 =
        (calculateRelevanceScore lg canon
          ((rankPosts lg canon posts profile).get i).1 profile).value :=
      rank_entry_value lg canon posts profile _ (List.get_mem _ i.1 i.2)
    have hle := part1 _ h25i hprei
    rw [← hvali] at hle
    linarith

/-- Logarithm table for the counterexample inputs.  Every post involved has
likes = 0, so the scoring only ever evaluates the logarithm at 1, where the
real log10 is 0; the table returns that value. -/
def lgZero : ℕ → ℚ := fun _ => 0

/-- Post central to a hated topic: dislike weight 20 times relevance 2
gives impact 40, beyond the veto threshold. -/
def cexGamingPost : Post :=
  { id := "g", title := { en := "lol", zh := "lol" }, tags := ["Gaming"],
    tagWeights := [("Gaming", 2)], likes := 0 }

/-- Post accumulating nine sub-threshold dislike hits (impact 24 each), so
it is never vetoed yet scores 9 * 24 * 5 = 1080 points below zero. -/
def cexPenaltyPost : Post :=
  { id := "x", title := { en := "x", zh := "x" },
    tags := ["X1", "X2", "X3", "X4", "X5", "X6", "X7", "X8", "X9"],
    tagWeights := [], likes := 0 }

/-- Profile whose dislikes veto the Gaming post and strongly penalize the
nine-tag post without vetoing it. -/
def cexProfile : UserProfile :=
  { id := "u", name := "n", bio := "b", interests := [],
    dislikes := [⟨"Gaming", 20⟩, ⟨"X1", 24⟩, ⟨"X2", 24⟩, ⟨"X3", 24⟩, ⟨"X4", 24⟩,
      ⟨"X5", 24⟩, ⟨"X6", 24⟩, ⟨"X7", 24⟩, ⟨"X8", 24⟩, ⟨"X9", 24⟩] }

/-- C1 counterexample: the Gaming post has maximum dislike impact 40 ≥ 25,
yet its score is -1000 - (-200) * 0.1 = -980, above -1000; and in the rank
call over both posts the vetoed Gaming post (score -980) is placed first,
outranking the non-vetoed nine-tag post (score -1080, every impact below
25).  Both halves of the claim as stated are false at this input. -/
theorem claim1_counterexample :
    25 ≤ maxDislikeImpact (fun s => s) cexGamingPost cexProfile ∧
    ¬ ((calculateRelevanceScore lgZero (fun s => s) cexGamingPost cexProfile).value ≤ -1000) ∧
    (rankPosts lgZero (fun s => s) [cexPenaltyPost, cexGamingPost] cexProfile).map
        (fun x => x.1.id) = ["g", "x"] ∧
    maxDislikeImpact (fun s => s) cexPenaltyPost cexProfile < 25 := by
  refine ⟨?_, ?_, ?_, ?_⟩
  · simp [maxDislikeImpact, dislikeHits, tagRelevance, tagMatches, strSub, subAt,
      startsWithChars, cexGamingPost, cexProfile, List.find?_cons, List.find?_nil]
    norm_num
  · simp [calculateRelevanceScore, vetoFlag, vetoTagOf, dislikeHits, maxDislikeImpact,
      preScore, popularityBias, interestScan, synergyBonus, tagRelevance, tagMatches,
      strSub, subAt, startsWithChars, lgZero, cexGamingPost, cexProfile,
      List.find?_cons, List.find?_nil]
    norm_num
  · simp [rankPosts, List.insertionSort, List.orderedInsert, scoreDesc,
      calculateRelevanceScore, vetoFlag, vetoTagOf, dislikeHits, maxDislikeImpact,
      preScore, popularityBias, interestScan, synergyBonus, tagRelevance, tagMatches,
      strSub, subAt, startsWithChars, lgZero, cexGamingPost, cexPenaltyPost, cexProfile,
      List.find?_cons, List.find?_nil]
    norm_num
  · simp [maxDislikeImpact, dislikeHits, tagRelevance, tagMatches, strSub, subAt,
      startsWithChars, cexPenaltyPost, cexProfile, List.find?_cons, List.find?_nil]
    norm_num

/-- Post for the amended-veto witness: centrally about the hated Gaming
topic (impact 40, vetoed) but also centrally about the liked topic Z, so
its pre-veto score is nonnegative. -/
def wVetoPost : Post :=
  { id := "w", title := { en := "w", zh := "w" }, tags := ["Gaming", "Z"],
    tagWeights := [("Gaming", 2), ("Z", 2)], likes := 0 }

/-- Profile for the amended-veto witness. -/
def wProfile : UserProfile :=
  { id := "u", name := "n", bio := "b", interests := [⟨"Z", 40⟩],
    dislikes := [⟨"Gaming", 20⟩] }

/-- C1 witness: the amended theorem applied to a vetoed post whose pre-veto
score is 0 + 320 + 0 - 200 = 120 ≥ 0; its final score is -1012 ≤ -1000. -/
theorem claim1_veto_dominance_amended_witness :
    25 ≤ maxDislikeImpact (fun s => s) wVetoPost wProfile ∧
    0 ≤ preScore lgZero (fun s => s) wVetoPost wProfile ∧
    (calculateRelevanceScore lgZero (fun s => s) wVetoPost wProfile).value ≤ -1000 := by
  have h25 : 25 ≤ maxDislikeImpact (fun s => s) wVetoPost wProfile := by
    simp [maxDislikeImpact, dislikeHits, tagRelevance, tagMatches, strSub, subAt,
      startsWithChars, wVetoPost, wProfile, List.find?_cons, List.find?_nil]
    norm_num
  have hpre : 0 ≤ preScore lgZero (fun s => s) wVetoPost wProfile := by
    simp [preScore, popularityBias, interestScan, synergyBonus, dislikeHits,
      tagRelevance, tagMatches, strSub, subAt, startsWithChars, lgZero, wVetoPost,
      wProfile, List.find?_cons, List.find?_nil]
    norm_num
  exact ⟨h25, hpre,
    (claim1_veto_dominance_amended lgZero (fun s => s) [] wProfile).1 wVetoPost h25 hpre⟩
